import Mathlib

/-
Verification of the qbench-downloader sweep (src/index.js).

The script is embedded shallowly:
  * the download ledger (download_log.json) is an association list from the
    report id rendered as a string to its LedgerEntry, mirroring the JSON
    object keyed by `reportId` (src/index.js lines 165-172, 206-210);
  * the local filesystem is a map from path to optional file content;
    `fs.existsSync`, `createWriteStream`+pipe and `renameSync` become
    lookups, writes and a rename on that map;
  * the remote side (report detail payloads, artifact bytes served per URL,
    the SHA-256 hash function and the wall-clock timestamp) is packaged in
    an `Env` record, so `processReport` (lines 178-214) and the pagination
    loop of `main` (lines 229-276) become pure state transformers;
  * the token cache and the retry wrapper `authRequest` (lines 29-95) are
    embedded separately over an `AuthState`, with the sequence of outcomes
    the server would produce for successive attempts given as a list.
-/

-- ---------------------------------------------------------------------------
-- Download ledger (src/index.js lines 165-172, entries created line 206)
-- ---------------------------------------------------------------------------

structure LedgerEntry where
  filename : String
  hash : String
  downloaded_at : String
deriving DecidableEq

/-- The persisted download log: JSON object keyed by the report id rendered
as a string, in insertion order. -/
abbrev Ledger := List (String × LedgerEntry)

def ledgerGet : Ledger → String → Option LedgerEntry
  | [], _ => none
  | (k, e) :: rest, key => if k = key then some e else ledgerGet rest key

/-- JS object assignment `downloadLog[reportId] = entry`: replace in place if
the key exists, else append. -/
def ledgerSet : Ledger → String → LedgerEntry → Ledger
  | [], key, entry => [(key, entry)]
  | (k, e) :: rest, key, entry =>
    if k = key then (key, entry) :: rest else (k, e) :: ledgerSet rest key entry

/-- Object.keys of the download log (src/index.js line 226). -/
def ledgerKeys (l : Ledger) : List String := l.map Prod.fst

-- ---------------------------------------------------------------------------
-- Filesystem
-- ---------------------------------------------------------------------------

/-- The local filesystem: path to optional file content. -/
abbrev FS := String → Option String

def fsWrite (fs : FS) (p : String) (c : String) : FS :=
  fun q => if q = p then some c else fs q

/-- `fs.renameSync(src, dst)` (src/index.js line 204): dst now holds src's
content, src is gone. -/
def fsRename (fs : FS) (src dst : String) : FS :=
  fun q => if q = src then none else if q = dst then fs src else fs q

def pathJoin (dir name : String) : String := dir ++ "/" ++ name

-- ---------------------------------------------------------------------------
-- Environment of one run
-- ---------------------------------------------------------------------------

/-- One page of the listing response (src/index.js lines 119-124). -/
structure Page where
  reports : List Nat
  pageNumber : Nat
  totalPages : Nat

/-- The remote world and ambient parameters of a run.  `detailUrl id` is
`detail?.data?.url` of `getReportDetail id` (line 181); `remoteContent u` is
the body streamed from `u`; `hashFn` abstracts the SHA-256 hex digest of a
file's content (lines 151-159); `now` the ISO timestamp; `pages n` the
listing response for `page_num = n`. -/
structure Env where
  dir : String
  detailUrl : Nat → Option String
  remoteContent : String → String
  hashFn : String → String
  now : String
  pages : Nat → Page

def reportFilename (id : Nat) : String := "report_" ++ toString id ++ ".pdf"

def finalPathOf (env : Env) (id : Nat) : String :=
  pathJoin env.dir (reportFilename id)

def tempPathOf (env : Env) (id : Nat) : String :=
  pathJoin env.dir (".tmp_" ++ reportFilename id)

-- ---------------------------------------------------------------------------
-- processReport (src/index.js lines 178-214)
-- ---------------------------------------------------------------------------

structure ProcResult where
  downloaded : Bool
  log : Ledger
  fs : FS

/-- The download arm of processReport (lines 201-213): stream to the temp
path, hash it, rename onto the final path, record the ledger entry. -/
def doDownload (env : Env) (id : Nat) (fileUrl : String) (log : Ledger) (fs : FS) : ProcResult :=
  let content := env.remoteContent fileUrl
  let fs1 := fsWrite fs (tempPathOf env id) content
  let newHash := env.hashFn content
  let fs2 := fsRename fs1 (tempPathOf env id) (finalPathOf env id)
  ⟨true, ledgerSet log (toString id) ⟨reportFilename id, newHash, env.now⟩, fs2⟩

/-- processReport (lines 178-214).  The `some ""` arm reproduces JS falsiness
of `if (!fileUrl)`; the nested match on the ledger reproduces
`downloadLog[reportId]?.hash === existingHash`. -/
def processReport (env : Env) (id : Nat) (log : Ledger) (fs : FS) : ProcResult :=
  match env.detailUrl id with
  | none => ⟨false, log, fs⟩
  | some fileUrl =>
    if fileUrl = "" then ⟨false, log, fs⟩
    else
      match fs (finalPathOf env id) with
      | some existing =>
        match ledgerGet log (toString id) with
        | some entry =>
          if entry.hash = env.hashFn existing then ⟨false, log, fs⟩
          else doDownload env id fileUrl log fs
        | none => doDownload env id fileUrl log fs
      | none => doDownload env id fileUrl log fs

-- ---------------------------------------------------------------------------
-- The pagination sweep (src/index.js lines 220-283)
-- ---------------------------------------------------------------------------

/-- In-memory state of `main`: the mutable download log, the filesystem, the
`downloadedIds` set and the `totalDownloaded` counter. -/
structure SweepState where
  log : Ledger
  fs : FS
  downloadedIds : List String
  totalDownloaded : Nat

/-- Body of the per-report loop (lines 246-259): the ledger-membership fast
path, then processReport, counting completed downloads. -/
def processRecord (env : Env) (st : SweepState) (id : Nat) : SweepState :=
  if toString id ∈ st.downloadedIds then st
  else
    let r := processReport env id st.log st.fs
    if r.downloaded then
      ⟨r.log, r.fs, toString id :: st.downloadedIds, st.totalDownloaded + 1⟩
    else
      ⟨r.log, r.fs, st.downloadedIds, st.totalDownloaded⟩

def processRecords (env : Env) (st : SweepState) (ids : List Nat) : SweepState :=
  ids.foldl (processRecord env) st

/-- Observable events of a run: a page fetch, and a flush of the ledger to
durable storage (writeDownloadLog, line 261). -/
inductive Event where
  | fetch (n : Nat)
  | flush (log : Ledger)
deriving DecidableEq

/-- The `while (true)` pagination loop (lines 237-276), fuelled: fetch the
page, process its reports, flush the ledger, stop when the server-reported
`page_number >= total_pages`, else increment and continue. -/
def runPages (env : Env) : Nat → Nat → SweepState → List Event → Option (SweepState × List Event)
  | 0, _, _, _ => none
  | fuel + 1, pageNumber, st, tr =>
    let page := env.pages pageNumber
    let st' := processRecords env st page.reports
    let tr' := tr ++ [Event.fetch pageNumber, Event.flush st'.log]
    if page.totalPages ≤ page.pageNumber then
      some (st', tr')
    else
      runPages env fuel (pageNumber + 1) st' tr'

/-- State at entry of the loop (lines 225-232): the loaded ledger, the
filesystem, `downloadedIds = Object.keys(downloadLog)`, zero downloads. -/
def initState (log0 : Ledger) (fs0 : FS) : SweepState :=
  ⟨log0, fs0, ledgerKeys log0, 0⟩

def runSweep (env : Env) (fuel : Nat) (log0 : Ledger) (fs0 : FS) :
    Option (SweepState × List Event) :=
  runPages env fuel 1 (initState log0 fs0) []

/-- The page numbers fetched during a run, in order. -/
def fetchedPages (tr : List Event) : List Nat :=
  tr.filterMap fun e =>
    match e with
    | Event.fetch n => some n
    | Event.flush _ => none

-- ---------------------------------------------------------------------------
-- Token handling with auto-refresh (src/index.js lines 29-54)
-- ---------------------------------------------------------------------------

/-- Local token cache TTL: `tokenExpiresAt = Date.now() + 4 * 60 * 1000`
(src/index.js line 50), in milliseconds. -/
def localTokenTtlMs : Int := 4 * 60 * 1000

/-- Server-side lifetime of the signed assertion: `expiresIn: '5m'` in
getAccessToken (src/index.js line 34), in milliseconds. -/
def jwtAssertionTtlMs : Int := 5 * 60 * 1000

/-- Supply of fresh bearer tokens: `freshToken k` is what the k-th call to
getAccessToken would return. -/
structure AuthEnv where
  freshToken : Nat → String

/-- The module-level mutable token cache (`cachedToken`, `tokenExpiresAt`,
src/index.js lines 29-30) together with the local clock, the count of
exchanges performed so far, and the log of sleeps (in seconds) done by the
retry wrapper. -/
structure AuthState where
  cachedToken : Option String
  tokenExpiresAt : Option Int
  now : Int
  refreshCount : Nat
  sleeps : List Nat
deriving DecidableEq

/-- The refresh guard `!cachedToken || !tokenExpiresAt || Date.now() >=
tokenExpiresAt` (line 48), including JS falsiness of the empty string and of
the number 0. -/
def needsRefresh (st : AuthState) : Bool :=
  (st.cachedToken.getD "").isEmpty || (st.tokenExpiresAt.getD 0 == 0)
    || decide (st.tokenExpiresAt.getD 0 ≤ st.now)

/-- getValidToken (src/index.js lines 47-54). -/
def getValidToken (env : AuthEnv) (st : AuthState) : String × AuthState :=
  if needsRefresh st then
    (env.freshToken st.refreshCount,
     ⟨some (env.freshToken st.refreshCount), some (st.now + localTokenTtlMs),
      st.now, st.refreshCount + 1, st.sleeps⟩)
  else
    (st.cachedToken.getD "", st)

-- ---------------------------------------------------------------------------
-- authRequest retry wrapper (src/index.js lines 60-95)
-- ---------------------------------------------------------------------------

/-- The error body `err?.response?.data`, with its two fields of interest;
`none` in either field is an absent JSON key. -/
structure ErrBody where
  error_description : Option String
  error_type : Option String
deriving DecidableEq

/-- What one attempt of the wrapped axios call produces: a successful
response, or a failure carrying `err?.response?.data` (which may itself be
absent). -/
inductive Outcome where
  | success (resp : String)
  | failure (data : Option ErrBody)
deriving DecidableEq

/-- `data?.error_description === "Access token has expired."` (line 71). -/
def isExpired (data : Option ErrBody) : Bool :=
  match data with
  | some d => d.error_description == some "Access token has expired."
  | none => false

def startsWithChars : List Char → List Char → Bool
  | [], _ => true
  | _ :: _, [] => false
  | p :: ps, c :: cs => p == c && startsWithChars ps cs

def containsChars (pat : List Char) : List Char → Bool
  | [] => startsWithChars pat []
  | c :: cs => startsWithChars pat (c :: cs) || containsChars pat cs

/-- `data?.error_type === "RateLimitError" ||
(data?.error_description || "").toLowerCase().includes("ratelimit")`
(lines 72-74). -/
def isRateLimit (data : Option ErrBody) : Bool :=
  match data with
  | some d =>
    d.error_type == some "RateLimitError"
      || containsChars ("ratelimit".toList)
           ((d.error_description.getD "").toList.map Char.toLower)
  | none => false

/-- Split a maximal leading run of ASCII digits, as the greedy `\d+`. -/
def digitSpan : List Char → List Char × List Char
  | [] => ([], [])
  | c :: cs =>
    if c.isDigit then
      let p := digitSpan cs
      (c :: p.1, p.2)
    else ([], c :: cs)

/-- `parseInt(match[1], 10)` on a run of digits. -/
def natOfDigits (ds : List Char) : Nat :=
  ds.foldl (fun n c => n * 10 + (c.toNat - 48)) 0

/-- Try the regex `/retry in (\d+) seconds?/i` anchored at the head of an
already lowercased character list. -/
def retryMatchAt (cs : List Char) : Option Nat :=
  if startsWithChars ("retry in ".toList) cs then
    let p := digitSpan (cs.drop 9)
    if p.1.isEmpty then none
    else if startsWithChars (" second".toList) p.2 then some (natOfDigits p.1)
    else none
  else none

/-- Leftmost match of the pattern anywhere in the list. -/
def retrySearch : List Char → Option Nat
  | [] => none
  | c :: cs =>
    match retryMatchAt (c :: cs) with
    | some n => some n
    | none => retrySearch cs

/-- `(data.error_description || "").match(/retry in (\d+) seconds?/i)`
(line 84); the `/i` flag is realised by lowercasing the haystack against the
all-lowercase pattern. -/
def parseRetryWait (s : String) : Option Nat :=
  retrySearch (s.toList.map Char.toLower)

/-- Lines 83-85: `let waitSeconds = 10; if (match) waitSeconds =
parseInt(match[1], 10)`. -/
def rateLimitWait (s : String) : Nat :=
  (parseRetryWait s).getD 10

def rateLimitWaitOf (data : Option ErrBody) : Nat :=
  match data with
  | some d => rateLimitWait (d.error_description.getD "")
  | none => 10

/-- What the caller of authRequest observes. -/
inductive ReqResult where
  | ok (resp : String)
  | err (data : Option ErrBody)
  | exhausted
deriving DecidableEq

/-- authRequest (src/index.js lines 60-95): attach a valid token, and on
failure either invalidate the cache and retry at once (expired token), sleep
`waitSeconds` and retry (rate limit), or rethrow.  The list holds the
outcome of each successive attempt; `exhausted` marks running off its end,
which no claim exercises. -/
def authRequest (env : AuthEnv) : List Outcome → AuthState → ReqResult × AuthState
  | [], st => (ReqResult.exhausted, st)
  | o :: rest, st =>
    let st1 := (getValidToken env st).2
    match o with
    | Outcome.success r => (ReqResult.ok r, st1)
    | Outcome.failure data =>
      if isExpired data then
        authRequest env rest ⟨none, st1.tokenExpiresAt, st1.now, st1.refreshCount, st1.sleeps⟩
      else if isRateLimit data then
        authRequest env rest
          ⟨st1.cachedToken, st1.tokenExpiresAt,
           st1.now + (rateLimitWaitOf data : Int) * 1000, st1.refreshCount,
           st1.sleeps ++ [rateLimitWaitOf data]⟩
      else (ReqResult.err data, st1)

-- ---------------------------------------------------------------------------
-- Concrete fixtures used to evaluate the theorems on closed inputs
-- ---------------------------------------------------------------------------

def fsEmpty : FS := fun _ => none

/-- One-page world: the single page lists report 1, which has url "u"
serving content "C"; hashing is modelled as the identity on contents. -/
def cEnvA : Env :=
  ⟨"d", fun _ => some "u", fun _ => "C", fun s => s, "t", fun _ => ⟨[1], 1, 1⟩⟩

/-- A ledger holding report 1 with stored hash "h". -/
def c1Log : Ledger := [("1", ⟨"report_1.pdf", "h", "t0"⟩)]

def c2Env : Env :=
  ⟨"d", fun _ => some "u", fun _ => "C", fun s => s, "t", fun m => ⟨[], m, 1⟩⟩

def c2Log : Ledger := [("2", ⟨"report_2.pdf", "C", "t0"⟩)]

/-- A filesystem holding exactly report 2's final file with content "C". -/
def c2Fs : FS := fun p => if p = pathJoin "d" "report_2.pdf" then some "C" else none

/-- A listing server with three empty pages, each reporting its own number. -/
def c3Env : Env :=
  ⟨"d", fun _ => none, fun _ => "", fun s => s, "t", fun m => ⟨[], m, 3⟩⟩

/-- One page listing report 5, url "u", content "C", identity hash. -/
def c7Env : Env :=
  ⟨"d", fun _ => some "u", fun _ => "C", fun s => s, "t", fun m => ⟨[5], m, 1⟩⟩

def c7Log1 : Ledger := [("5", ⟨"report_5.pdf", "C", "t"⟩)]

/-- The filesystem after the first sweep in c7Env downloaded report 5. -/
def c7Fs1 : FS :=
  fsRename (fsWrite fsEmpty (tempPathOf c7Env 5) "C") (tempPathOf c7Env 5) (finalPathOf c7Env 5)

/-- The sweep state after one run of c7Env from an empty start. -/
def c7St1 : SweepState := ⟨c7Log1, c7Fs1, ["5"], 1⟩

/-- A world where report 1001's detail has no data.url. -/
def c8Env : Env :=
  ⟨"d", fun _ => none, fun _ => "C", fun s => s, "t", fun m => ⟨[1001], m, 1⟩⟩

def c8St : SweepState := initState [] fsEmpty

/-- One empty page, reporting total_pages = 1. -/
def c9Env : Env :=
  ⟨"d", fun _ => none, fun _ => "", fun s => s, "t", fun m => ⟨[], m, 1⟩⟩

def expiredBody : Option ErrBody := some ⟨some "Access token has expired.", none⟩

def rlBody : Option ErrBody :=
  some ⟨some "Rate limit: retry in 7 seconds", some "RateLimitError"⟩

def aSt0 : AuthState := ⟨none, none, 0, 0, []⟩

def cAuth : AuthEnv := ⟨fun n => "tok" ++ toString n⟩

-- ---------------------------------------------------------------------------
-- Basic lemmas on the ledger and the filesystem
-- ---------------------------------------------------------------------------

lemma ledgerGet_ledgerSet_self (l : Ledger) (k : String) (e : LedgerEntry) :
    ledgerGet (ledgerSet l k e) k = some e := by
  induction l with
  | nil => simp [ledgerSet, ledgerGet]
  | cons p rest ih =>
    by_cases h : p.1 = k
    · simp [ledgerSet, h, ledgerGet]
    · simp [ledgerSet, h, ledgerGet, ih]

lemma ledgerGet_ledgerSet_ne (l : Ledger) (k k' : String) (e : LedgerEntry)
    (h : k' ≠ k) : ledgerGet (ledgerSet l k e) k' = ledgerGet l k' := by
  have hk : ¬ (k = k') := fun hh => h hh.symm
  induction l with
  | nil => simp [ledgerSet, ledgerGet, hk]
  | cons p rest ih =>
    by_cases hp : p.1 = k
    · simp [ledgerSet, hp, ledgerGet, hk]
    · simp [ledgerSet, hp, ledgerGet, ih]

lemma mem_keys_ledgerSet_self (l : Ledger) (k : String) (e : LedgerEntry) :
    k ∈ ledgerKeys (ledgerSet l k e) := by
  induction l with
  | nil => simp [ledgerSet, ledgerKeys]
  | cons p rest ih =>
    by_cases hp : p.1 = k
    · simp [ledgerSet, hp, ledgerKeys]
    · simp only [ledgerSet, hp, if_false, ledgerKeys, List.map_cons, List.mem_cons]
      exact Or.inr ih

lemma mem_keys_ledgerSet (l : Ledger) (k k' : String) (e : LedgerEntry)
    (h : k' ∈ ledgerKeys l) : k' ∈ ledgerKeys (ledgerSet l k e) := by
  induction l with
  | nil => simp [ledgerKeys] at h
  | cons p rest ih =>
    simp only [ledgerKeys, List.map_cons, List.mem_cons] at h
    by_cases hp : p.1 = k
    · rcases h with h | h
      · simp [ledgerSet, hp, ledgerKeys, hp ▸ h]
      · simp only [ledgerSet, hp, if_true, ledgerKeys, List.map_cons, List.mem_cons]
        right
        simpa [ledgerKeys] using h
    · rcases h with h | h
      · simp [ledgerSet, hp, ledgerKeys, h]
      · simp only [ledgerSet, hp, if_false, ledgerKeys, List.map_cons, List.mem_cons]
        exact Or.inr (ih h)

lemma ledgerGet_mem_keys (l : Ledger) (k : String) (e : LedgerEntry)
    (h : ledgerGet l k = some e) : k ∈ ledgerKeys l := by
  induction l with
  | nil => simp [ledgerGet] at h
  | cons p rest ih =>
    by_cases hp : p.1 = k
    · simp [ledgerKeys, hp]
    · rw [show p = (p.1, p.2) from rfl] at h
      simp only [ledgerGet, hp, if_false] at h
      simp only [ledgerKeys, List.map_cons, List.mem_cons]
      exact Or.inr (ih h)

lemma temp_ne_final (env : Env) (id : Nat) :
    tempPathOf env id ≠ finalPathOf env id := by
  intro h
  have h2 := congrArg String.length h
  simp only [tempPathOf, finalPathOf, pathJoin, String.length_append] at h2
  have h5 : (".tmp_" : String).length = 5 := rfl
  omega

-- ---------------------------------------------------------------------------
-- Structure of processReport
-- ---------------------------------------------------------------------------

lemma doDownload_log (env : Env) (id : Nat) (u : String) (log : Ledger) (fs : FS) :
    (doDownload env id u log fs).log =
      ledgerSet log (toString id)
        ⟨reportFilename id, env.hashFn (env.remoteContent u), env.now⟩ := rfl

lemma doDownload_downloaded (env : Env) (id : Nat) (u : String) (log : Ledger) (fs : FS) :
    (doDownload env id u log fs).downloaded = true := rfl

lemma doDownload_fs_final (env : Env) (id : Nat) (u : String) (log : Ledger) (fs : FS) :
    (doDownload env id u log fs).fs (finalPathOf env id) = some (env.remoteContent u) := by
  show (fsRename (fsWrite fs (tempPathOf env id) (env.remoteContent u))
      (tempPathOf env id) (finalPathOf env id)) (finalPathOf env id) = _
  rw [fsRename]
  rw [if_neg (fun hh => temp_ne_final env id hh.symm), if_pos rfl]
  rw [fsWrite, if_pos rfl]

/-- JS falsiness of the extracted `detail?.data?.url`. -/
def noArtifactUrl (env : Env) (id : Nat) : Prop :=
  env.detailUrl id = none ∨ env.detailUrl id = some ""

/-- Exhaustive case split of processReport: either it returns "not
downloaded" leaving everything unchanged — and then either the url was
falsy or the ledger held a matching entry — or it took the download arm. -/
lemma processReport_cases (env : Env) (id : Nat) (log : Ledger) (fs : FS) :
    (processReport env id log fs = ⟨false, log, fs⟩ ∧
      (noArtifactUrl env id ∨ ∃ e, ledgerGet log (toString id) = some e)) ∨
    (∃ u, env.detailUrl id = some u ∧ u ≠ "" ∧
      processReport env id log fs = doDownload env id u log fs) := by
  rcases hd : env.detailUrl id with _ | u
  · exact Or.inl ⟨by simp [processReport, hd], Or.inl (Or.inl hd)⟩
  · by_cases hu : u = ""
    · exact Or.inl ⟨by simp [processReport, hd, hu], Or.inl (Or.inr (hu ▸ hd))⟩
    · rcases hf : fs (finalPathOf env id) with _ | c
      · exact Or.inr ⟨u, rfl, hu, by simp [processReport, hd, hu, hf]⟩
      · rcases hl : ledgerGet log (toString id) with _ | e
        · exact Or.inr ⟨u, rfl, hu, by simp [processReport, hd, hu, hf, hl]⟩
        · by_cases hh : e.hash = env.hashFn c
          · exact Or.inl ⟨by simp [processReport, hd, hu, hf, hl, hh], Or.inr ⟨e, rfl⟩⟩
          · exact Or.inr ⟨u, rfl, hu, by simp [processReport, hd, hu, hf, hl, hh]⟩

lemma processReport_of_noUrl (env : Env) (id : Nat) (log : Ledger) (fs : FS)
    (h : noArtifactUrl env id) : processReport env id log fs = ⟨false, log, fs⟩ := by
  rcases h with h | h
  · simp [processReport, h]
  · simp [processReport, h]

lemma processReport_false_eq (env : Env) (id : Nat) (log : Ledger) (fs : FS)
    (h : (processReport env id log fs).downloaded = false) :
    processReport env id log fs = ⟨false, log, fs⟩ := by
  rcases processReport_cases env id log fs with ⟨he, _⟩ | ⟨u, _, _, he⟩
  · exact he
  · rw [he] at h
    simp [doDownload_downloaded] at h

-- ---------------------------------------------------------------------------
-- Structure of the per-record loop body
-- ---------------------------------------------------------------------------

/-- The fast path (ledger membership) and the url-less processReport both
leave the sweep state untouched. -/
lemma processRecord_skip (env : Env) (st : SweepState) (id : Nat)
    (h : toString id ∈ st.downloadedIds ∨ noArtifactUrl env id) :
    processRecord env st id = st := by
  by_cases hm : toString id ∈ st.downloadedIds
  · simp [processRecord, hm]
  · rcases h with h | h
    · exact absurd h hm
    · simp [processRecord, hm, processReport_of_noUrl env id st.log st.fs h]

lemma processRecords_skip (env : Env) (st : SweepState) (ids : List Nat)
    (h : ∀ id ∈ ids, toString id ∈ st.downloadedIds ∨ noArtifactUrl env id) :
    processRecords env st ids = st := by
  induction ids with
  | nil => rfl
  | cons a rest ih =>
    show List.foldl (processRecord env) (processRecord env st a) rest = st
    rw [processRecord_skip env st a (h a (List.mem_cons_self a rest))]
    exact ih fun id hid => h id (List.mem_cons_of_mem a hid)

-- ---------------------------------------------------------------------------
-- Deterministic shape of a full traversal
-- ---------------------------------------------------------------------------

/-- In-memory state after the records of pages 1..i have been processed,
starting from `st`. -/
def pagesStateAfter (env : Env) (st : SweepState) : Nat → SweepState
  | 0 => st
  | i + 1 => processRecords env (pagesStateAfter env st i) (env.pages (i + 1)).reports

/-- The event trace produced by pages a, a+1, ..., a+len-1. -/
def pageTrace (env : Env) (st : SweepState) (a len : Nat) : List Event :=
  (List.range' a len).flatMap fun i =>
    [Event.fetch i, Event.flush (pagesStateAfter env st i).log]

/-- Under a listing endpoint that reports its own page number and a fixed
total of T pages, the loop starting at page n (with enough fuel) visits
exactly pages n..max T 1 and produces the canonical interleaved trace. -/
lemma runPages_master (env : Env) (T : Nat)
    (hpage : ∀ m, (env.pages m).pageNumber = m ∧ (env.pages m).totalPages = T)
    (st0 : SweepState) :
    ∀ fuel n tr, 1 ≤ n → n ≤ max T 1 → max T 1 - n < fuel →
      runPages env fuel n (pagesStateAfter env st0 (n - 1)) tr =
        some (pagesStateAfter env st0 (max T 1),
              tr ++ pageTrace env st0 n (max T 1 + 1 - n)) := by
  intro fuel
  induction fuel with
  | zero => intro n tr h1 h2 h3; omega
  | succ fuel ih =>
    intro n tr h1 h2 h3
    have hn1 : n - 1 + 1 = n := by omega
    have hst : processRecords env (pagesStateAfter env st0 (n - 1)) (env.pages n).reports
        = pagesStateAfter env st0 n := by
      conv_rhs => rw [← hn1]
      show _ = processRecords env (pagesStateAfter env st0 (n - 1)) (env.pages (n - 1 + 1)).reports
      rw [hn1]
    simp only [runPages, (hpage n).1, (hpage n).2, hst]
    by_cases hTn : T ≤ n
    · rw [if_pos hTn]
      have hmax : n = max T 1 := by omega
      have hone : max T 1 + 1 - n = 1 := by omega
      rw [hone, pageTrace, List.range'_one, ← hmax]
      simp
    · rw [if_neg hTn]
      have hrec := ih (n + 1) (tr ++ [Event.fetch n, Event.flush (pagesStateAfter env st0 n).log])
        (by omega) (by omega) (by omega)
      have hn2 : n + 1 - 1 = n := by omega
      rw [hn2] at hrec
      rw [hrec]
      have hlen : max T 1 + 1 - n = (max T 1 + 1 - (n + 1)) + 1 := by omega
      conv_rhs => rw [hlen, pageTrace, List.range'_succ, List.flatMap_cons]
      simp [pageTrace, List.append_assoc]

/-- The full sweep under a fixed page count T: it terminates with the state
after pages 1..max T 1 and the canonical trace. -/
lemma runSweep_eq (env : Env) (T fuel : Nat) (log0 : Ledger) (fs0 : FS)
    (hpage : ∀ m, (env.pages m).pageNumber = m ∧ (env.pages m).totalPages = T)
    (hfuel : max T 1 ≤ fuel) :
    runSweep env fuel log0 fs0 =
      some (pagesStateAfter env (initState log0 fs0) (max T 1),
            pageTrace env (initState log0 fs0) 1 (max T 1)) := by
  have h := runPages_master env T hpage (initState log0 fs0) fuel 1 []
    (by omega) (by omega) (by omega)
  have h1 : max T 1 + 1 - 1 = max T 1 := by omega
  rw [h1] at h
  exact h

-- ---------------------------------------------------------------------------
-- Ledger keys through the sweep: monotone growth and coverage
-- ---------------------------------------------------------------------------

lemma processRecord_log_cases (env : Env) (st : SweepState) (id : Nat) :
    (processRecord env st id).log = st.log ∨
    ∃ e, (processRecord env st id).log = ledgerSet st.log (toString id) e := by
  by_cases hm : toString id ∈ st.downloadedIds
  · rw [processRecord_skip env st id (Or.inl hm)]
    exact Or.inl rfl
  · rcases processReport_cases env id st.log st.fs with ⟨he, _⟩ | ⟨u, hd, hu, he⟩
    · exact Or.inl (by simp [processRecord, hm, he])
    · exact Or.inr ⟨⟨reportFilename id, env.hashFn (env.remoteContent u), env.now⟩,
        by simp [processRecord, hm, he, doDownload_downloaded, doDownload_log]⟩

lemma mem_keys_processRecord (env : Env) (st : SweepState) (id : Nat) (k : String)
    (h : k ∈ ledgerKeys st.log) : k ∈ ledgerKeys (processRecord env st id).log := by
  rcases processRecord_log_cases env st id with hc | ⟨e, hc⟩
  · rw [hc]; exact h
  · rw [hc]; exact mem_keys_ledgerSet _ _ _ _ h

lemma mem_keys_processRecords (env : Env) (ids : List Nat) :
    ∀ (st : SweepState) (k : String), k ∈ ledgerKeys st.log →
      k ∈ ledgerKeys (processRecords env st ids).log := by
  induction ids with
  | nil => intro st k h; exact h
  | cons a rest ih =>
    intro st k h
    exact ih (processRecord env st a) k (mem_keys_processRecord env st a k h)

/-- One step of the per-record loop preserves `downloadedIds ⊆ Object.keys
downloadLog` (true at entry since downloadedIds is built from the keys). -/
lemma idsInKeys_processRecord (env : Env) (st : SweepState) (id : Nat)
    (hinv : ∀ k ∈ st.downloadedIds, k ∈ ledgerKeys st.log) :
    ∀ k ∈ (processRecord env st id).downloadedIds,
      k ∈ ledgerKeys (processRecord env st id).log := by
  by_cases hm : toString id ∈ st.downloadedIds
  · rw [processRecord_skip env st id (Or.inl hm)]
    exact hinv
  · rcases processReport_cases env id st.log st.fs with ⟨he, _⟩ | ⟨u, hd, hu, he⟩
    · have hrec : processRecord env st id =
          ⟨st.log, st.fs, st.downloadedIds, st.totalDownloaded⟩ := by
        simp [processRecord, hm, he]
      rw [hrec]
      exact hinv
    · have hrec : processRecord env st id =
          ⟨ledgerSet st.log (toString id)
             ⟨reportFilename id, env.hashFn (env.remoteContent u), env.now⟩,
           (doDownload env id u st.log st.fs).fs,
           toString id :: st.downloadedIds, st.totalDownloaded + 1⟩ := by
        simp [processRecord, hm, he, doDownload_downloaded, doDownload_log]
      rw [hrec]
      intro k hk
      rcases List.mem_cons.mp hk with hk | hk
      · subst hk
        exact mem_keys_ledgerSet_self _ _ _
      · exact mem_keys_ledgerSet _ _ _ _ (hinv k hk)

lemma idsInKeys_processRecords (env : Env) (ids : List Nat) :
    ∀ st : SweepState, (∀ k ∈ st.downloadedIds, k ∈ ledgerKeys st.log) →
      ∀ k ∈ (processRecords env st ids).downloadedIds,
        k ∈ ledgerKeys (processRecords env st ids).log := by
  induction ids with
  | nil => intro st h; exact h
  | cons a rest ih =>
    intro st h
    exact ih (processRecord env st a) (idsInKeys_processRecord env st a h)

/-- After the loop body ran on a report, its id has a ledger entry unless
its detail had no usable artifact url. -/
lemma covered_processRecord (env : Env) (st : SweepState) (id : Nat)
    (hinv : ∀ k ∈ st.downloadedIds, k ∈ ledgerKeys st.log) :
    toString id ∈ ledgerKeys (processRecord env st id).log ∨ noArtifactUrl env id := by
  by_cases hm : toString id ∈ st.downloadedIds
  · rw [processRecord_skip env st id (Or.inl hm)]
    exact Or.inl (hinv _ hm)
  · rcases processReport_cases env id st.log st.fs with ⟨he, hside⟩ | ⟨u, hd, hu, he⟩
    · rcases hside with hn | ⟨e, hl⟩
      · exact Or.inr hn
      · have hlog : (processRecord env st id).log = st.log := by
          simp [processRecord, hm, he]
        rw [hlog]
        exact Or.inl (ledgerGet_mem_keys _ _ _ hl)
    · have hlog : (processRecord env st id).log = ledgerSet st.log (toString id)
          ⟨reportFilename id, env.hashFn (env.remoteContent u), env.now⟩ := by
        simp [processRecord, hm, he, doDownload_downloaded, doDownload_log]
      rw [hlog]
      exact Or.inl (mem_keys_ledgerSet_self _ _ _)

lemma covered_processRecords (env : Env) (ids : List Nat) :
    ∀ st : SweepState, (∀ k ∈ st.downloadedIds, k ∈ ledgerKeys st.log) →
      ∀ id ∈ ids, toString id ∈ ledgerKeys (processRecords env st ids).log ∨
        noArtifactUrl env id := by
  induction ids with
  | nil => intro st h id hid; cases hid
  | cons a rest ih =>
    intro st h id hid
    rcases List.mem_cons.mp hid with rfl | hid
    · rcases covered_processRecord env st id h with hc | hc
      · exact Or.inl (mem_keys_processRecords env rest _ _ hc)
      · exact Or.inr hc
    · exact ih (processRecord env st a) (idsInKeys_processRecord env st a h) id hid

lemma idsInKeys_pagesStateAfter (env : Env) (st : SweepState)
    (h : ∀ k ∈ st.downloadedIds, k ∈ ledgerKeys st.log) :
    ∀ i, ∀ k ∈ (pagesStateAfter env st i).downloadedIds,
      k ∈ ledgerKeys (pagesStateAfter env st i).log := by
  intro i
  induction i with
  | zero => exact h
  | succ i ih => exact idsInKeys_processRecords env _ _ ih

/-- After pages 1..i have been processed, every report id listed on one of
those pages either has a ledger entry or had no artifact url. -/
lemma covered_pagesStateAfter (env : Env) (st : SweepState)
    (h : ∀ k ∈ st.downloadedIds, k ∈ ledgerKeys st.log) :
    ∀ i j, 1 ≤ j → j ≤ i → ∀ r ∈ (env.pages j).reports,
      toString r ∈ ledgerKeys (pagesStateAfter env st i).log ∨ noArtifactUrl env r := by
  intro i
  induction i with
  | zero => intro j h1 h2; omega
  | succ i ih =>
    intro j h1 h2 r hr
    by_cases hj : j = i + 1
    · subst hj
      exact covered_processRecords env (env.pages (i + 1)).reports
        (pagesStateAfter env st i) (idsInKeys_pagesStateAfter env st h i) r hr
    · rcases ih j h1 (by omega) r hr with hc | hc
      · exact Or.inl (mem_keys_processRecords env _ _ _ hc)
      · exact Or.inr hc

/-- If every report of pages 1..T is already skippable from state st, the
first T page steps leave st untouched. -/
lemma pagesStateAfter_id (env : Env) (st : SweepState) (T : Nat)
    (hcov : ∀ j, 1 ≤ j → j ≤ T → ∀ r ∈ (env.pages j).reports,
      toString r ∈ st.downloadedIds ∨ noArtifactUrl env r) :
    ∀ i, i ≤ T → pagesStateAfter env st i = st := by
  intro i
  induction i with
  | zero => intro; rfl
  | succ i ih =>
    intro hi
    show processRecords env (pagesStateAfter env st i) (env.pages (i + 1)).reports = st
    rw [ih (by omega)]
    exact processRecords_skip env st _ (fun r hr => hcov (i + 1) (by omega) hi r hr)

/-- If every listed report is skippable from state st, the loop never
changes st, whatever page it starts on and however it terminates. -/
lemma runPages_frozen (env : Env) (st : SweepState)
    (hcov : ∀ n r, r ∈ (env.pages n).reports →
      toString r ∈ st.downloadedIds ∨ noArtifactUrl env r) :
    ∀ fuel n tr st' tr', runPages env fuel n st tr = some (st', tr') → st' = st := by
  intro fuel
  induction fuel with
  | zero => intro n tr st' tr' h; simp [runPages] at h
  | succ fuel ih =>
    intro n tr st' tr' h
    simp only [runPages] at h
    rw [processRecords_skip env st _ (fun r hr => hcov n r hr)] at h
    by_cases hstop : (env.pages n).totalPages ≤ (env.pages n).pageNumber
    · rw [if_pos hstop] at h
      simp only [Option.some.injEq, Prod.mk.injEq] at h
      exact h.1.symm
    · rw [if_neg hstop] at h
      exact ih (n + 1) _ st' tr' h

lemma fetchedPages_pageTrace (env : Env) (st : SweepState) :
    ∀ len a, fetchedPages (pageTrace env st a len) = List.range' a len := by
  intro len
  induction len with
  | zero => intro a; rfl
  | succ len ih =>
    intro a
    rw [pageTrace, List.range'_succ, List.flatMap_cons]
    show fetchedPages (_ ++ pageTrace env st (a + 1) len) = _
    rw [fetchedPages, List.filterMap_append, ← fetchedPages, ← fetchedPages, ih]
    rfl

-- ---------------------------------------------------------------------------
-- Small facts about getValidToken
-- ---------------------------------------------------------------------------

lemma getValidToken_sleeps (env : AuthEnv) (st : AuthState) :
    ((getValidToken env st).2).sleeps = st.sleeps := by
  rw [getValidToken]
  split <;> rfl

-- ---------------------------------------------------------------------------
-- Claim C2
-- ---------------------------------------------------------------------------

/-- Claim C2: for a report whose detail carries a usable artifact url, the
processor returns "not downloaded" (leaving the ledger and the filesystem
exactly as they were) if and only if the final file exists and its freshly
computed hash equals the hash stored in the report's ledger entry; in every
other case it re-downloads, records the fresh hash under the report's id and
leaves the new content at the final path, regardless of ledger presence. -/
theorem processReport_skip_iff (env : Env) (id : Nat) (log : Ledger) (fs : FS) (u : String)
    (hu : env.detailUrl id = some u) (hne : u ≠ "") :
    ((processReport env id log fs).downloaded = false ↔
      ∃ c e, fs (finalPathOf env id) = some c ∧
        ledgerGet log (toString id) = some e ∧ e.hash = env.hashFn c) ∧
    ((processReport env id log fs).downloaded = false →
      processReport env id log fs = ⟨false, log, fs⟩) ∧
    ((processReport env id log fs).downloaded = true →
      ledgerGet (processReport env id log fs).log (toString id) =
        some ⟨reportFilename id, env.hashFn (env.remoteContent u), env.now⟩ ∧
      (processReport env id log fs).fs (finalPathOf env id) = some (env.remoteContent u)) := by
  refine ⟨⟨?_, ?_⟩, processReport_false_eq env id log fs, ?_⟩
  · intro hfalse
    rcases hf : fs (finalPathOf env id) with _ | c
    · rw [show processReport env id log fs = doDownload env id u log fs from by
        simp [processReport, hu, hne, hf]] at hfalse
      simp [doDownload_downloaded] at hfalse
    · rcases hl : ledgerGet log (toString id) with _ | e
      · rw [show processReport env id log fs = doDownload env id u log fs from by
          simp [processReport, hu, hne, hf, hl]] at hfalse
        simp [doDownload_downloaded] at hfalse
      · by_cases hh : e.hash = env.hashFn c
        · exact ⟨c, e, rfl, rfl, hh⟩
        · rw [show processReport env id log fs = doDownload env id u log fs from by
            simp [processReport, hu, hne, hf, hl, hh]] at hfalse
          simp [doDownload_downloaded] at hfalse
  · rintro ⟨c, e, hc, he, hh⟩
    simp [processReport, hu, hne, hc, he, hh]
  · intro ht
    rcases processReport_cases env id log fs with ⟨he, _⟩ | ⟨u', hd, hu', he⟩
    · rw [he] at ht
      simp at ht
    · have huu : u = u' := by
        rw [hu] at hd
        exact Option.some.inj hd
      subst huu
      constructor
      · rw [he, doDownload_log]
        exact ledgerGet_ledgerSet_self _ _ _
      · rw [he]
        exact doDownload_fs_final env id u log fs

/-- Claim C2, evaluated: in c2Env the final file for report 2 exists with
content "C" and a matching ledger entry, so the skip condition holds. -/
theorem processReport_skip_iff_witness :
    c2Env.detailUrl 2 = some "u" ∧ ("u" : String) ≠ "" ∧
    (((processReport c2Env 2 c2Log c2Fs).downloaded = false ↔
      ∃ c e, c2Fs (finalPathOf c2Env 2) = some c ∧
        ledgerGet c2Log (toString 2) = some e ∧ e.hash = c2Env.hashFn c) ∧
    ((processReport c2Env 2 c2Log c2Fs).downloaded = false →
      processReport c2Env 2 c2Log c2Fs = ⟨false, c2Log, c2Fs⟩) ∧
    ((processReport c2Env 2 c2Log c2Fs).downloaded = true →
      ledgerGet (processReport c2Env 2 c2Log c2Fs).log (toString 2) =
        some ⟨reportFilename 2, c2Env.hashFn (c2Env.remoteContent "u"), c2Env.now⟩ ∧
      (processReport c2Env 2 c2Log c2Fs).fs (finalPathOf c2Env 2) =
        some (c2Env.remoteContent "u"))) :=
  ⟨rfl, by decide, processReport_skip_iff c2Env 2 c2Log c2Fs "u" rfl (by decide)⟩

-- ---------------------------------------------------------------------------
-- Claim C8
-- ---------------------------------------------------------------------------

/-- Claim C8: a report whose detail payload has no data.url makes the
processor return "not downloaded" with the ledger and the filesystem
untouched, and the sweep's record loop simply moves on to the remaining
records of the page. -/
theorem processReport_noUrl (env : Env) (id : Nat) (st : SweepState) (rest : List Nat)
    (h : env.detailUrl id = none) :
    processReport env id st.log st.fs = ⟨false, st.log, st.fs⟩ ∧
    processRecords env st (id :: rest) = processRecords env st rest := by
  constructor
  · exact processReport_of_noUrl env id st.log st.fs (Or.inl h)
  · show List.foldl (processRecord env) (processRecord env st id) rest = _
    rw [processRecord_skip env st id (Or.inr (Or.inl h))]
    rfl

/-- Claim C8, evaluated at report 1001 of c8Env. -/
theorem processReport_noUrl_witness :
    c8Env.detailUrl 1001 = none ∧
    processReport c8Env 1001 c8St.log c8St.fs = ⟨false, c8St.log, c8St.fs⟩ ∧
    processRecords c8Env c8St [1001, 7] = processRecords c8Env c8St [7] :=
  ⟨rfl, processReport_noUrl c8Env 1001 c8St [7] rfl⟩

-- ---------------------------------------------------------------------------
-- Claim C10
-- ---------------------------------------------------------------------------

/-- Claim C10: processReport touches at most the ledger key of the processed
report: every other key reads the same before and after, and when the call
reports "not downloaded" the ledger is exactly unchanged — the processed key
is written only on a completed download (which returns true). -/
theorem processReport_frame (env : Env) (id : Nat) (log : Ledger) (fs : FS) :
    (∀ k, k ≠ toString id →
      ledgerGet (processReport env id log fs).log k = ledgerGet log k) ∧
    ((processReport env id log fs).downloaded = false →
      (processReport env id log fs).log = log) := by
  constructor
  · intro k hk
    rcases processReport_cases env id log fs with ⟨he, _⟩ | ⟨u, hd, hu, he⟩
    · rw [he]
    · rw [he, doDownload_log]
      exact ledgerGet_ledgerSet_ne log (toString id) k _ hk
  · intro hf
    rw [processReport_false_eq env id log fs hf]

/-- Claim C10, evaluated: processing report 1 in cEnvA leaves the unrelated
key "99" untouched. -/
theorem processReport_frame_witness :
    ("99" : String) ≠ toString 1 ∧
    ledgerGet (processReport cEnvA 1 c1Log fsEmpty).log "99" = ledgerGet c1Log "99" :=
  ⟨by decide, (processReport_frame cEnvA 1 c1Log fsEmpty).1 "99" (by decide)⟩

-- ---------------------------------------------------------------------------
-- Claim C4
-- ---------------------------------------------------------------------------

/-- Claim C4: on a failure whose body says the access token has expired, the
executor invalidates the cached token and retries at once — no sleep is
recorded; and given one expired-token failure followed by a success, the
caller observes only the final successful response with no backoff at all. -/
theorem token_expired_retry (env : AuthEnv) (data : Option ErrBody)
    (hx : isExpired data = true) :
    (∀ rest st, authRequest env (Outcome.failure data :: rest) st =
      authRequest env rest
        ⟨none, ((getValidToken env st).2).tokenExpiresAt, ((getValidToken env st).2).now,
         ((getValidToken env st).2).refreshCount, ((getValidToken env st).2).sleeps⟩) ∧
    (∀ (r : String) (st : AuthState),
      (authRequest env [Outcome.failure data, Outcome.success r] st).1 = ReqResult.ok r ∧
      (authRequest env [Outcome.failure data, Outcome.success r] st).2.sleeps = st.sleeps) := by
  have hstep : ∀ rest st, authRequest env (Outcome.failure data :: rest) st =
      authRequest env rest
        ⟨none, ((getValidToken env st).2).tokenExpiresAt, ((getValidToken env st).2).now,
         ((getValidToken env st).2).refreshCount, ((getValidToken env st).2).sleeps⟩ := by
    intro rest st
    simp [authRequest, hx]
  refine ⟨hstep, ?_⟩
  intro r st
  rw [hstep [Outcome.success r] st]
  constructor
  · simp [authRequest]
  · simp [authRequest, getValidToken_sleeps]

/-- Claim C4, evaluated: one expired-token failure then a success, from an
empty token cache: the caller sees the success and no sleeps happened. -/
theorem token_expired_retry_witness :
    isExpired expiredBody = true ∧
    (authRequest cAuth [Outcome.failure expiredBody, Outcome.success "R"] aSt0).1 =
      ReqResult.ok "R" ∧
    (authRequest cAuth [Outcome.failure expiredBody, Outcome.success "R"] aSt0).2.sleeps =
      aSt0.sleeps :=
  ⟨by decide, ((token_expired_retry cAuth expiredBody (by decide)).2 "R" aSt0).1,
    ((token_expired_retry cAuth expiredBody (by decide)).2 "R" aSt0).2⟩

-- ---------------------------------------------------------------------------
-- Claim C5
-- ---------------------------------------------------------------------------

/-- Claim C5: on a failure whose body indicates rate limiting (and not token
expiry, which the wrapper tests first), the executor sleeps the number of
seconds parsed from the "retry in N seconds" pattern of the description —
10 when the pattern is absent — and re-issues the same request; a failure
that is neither rate limiting nor expiry propagates unchanged. -/
theorem rate_limited_retry (env : AuthEnv) (data : Option ErrBody)
    (hnx : isExpired data = false) :
    (isRateLimit data = true →
      ∀ rest st, authRequest env (Outcome.failure data :: rest) st =
        authRequest env rest
          ⟨((getValidToken env st).2).cachedToken, ((getValidToken env st).2).tokenExpiresAt,
           ((getValidToken env st).2).now + (rateLimitWaitOf data : Int) * 1000,
           ((getValidToken env st).2).refreshCount,
           ((getValidToken env st).2).sleeps ++ [rateLimitWaitOf data]⟩) ∧
    (∀ d, data = some d →
      rateLimitWaitOf data = (parseRetryWait (d.error_description.getD "")).getD 10) ∧
    (isRateLimit data = false →
      ∀ rest st, authRequest env (Outcome.failure data :: rest) st =
        (ReqResult.err data, (getValidToken env st).2)) := by
  refine ⟨?_, ?_, ?_⟩
  · intro hr rest st
    simp [authRequest, hnx, hr]
  · intro d hd
    rw [hd]
    rfl
  · intro hr rest st
    simp [authRequest, hnx, hr]

/-- Claim C5, evaluated: a RateLimitError whose description suggests 7
seconds makes the executor sleep exactly 7 seconds and retry. -/
theorem rate_limited_retry_witness :
    isExpired rlBody = false ∧ isRateLimit rlBody = true ∧ rateLimitWaitOf rlBody = 7 ∧
    authRequest cAuth [Outcome.failure rlBody] aSt0 =
      authRequest cAuth []
        ⟨((getValidToken cAuth aSt0).2).cachedToken, ((getValidToken cAuth aSt0).2).tokenExpiresAt,
         ((getValidToken cAuth aSt0).2).now + (rateLimitWaitOf rlBody : Int) * 1000,
         ((getValidToken cAuth aSt0).2).refreshCount,
         ((getValidToken cAuth aSt0).2).sleeps ++ [rateLimitWaitOf rlBody]⟩ :=
  ⟨by decide, by decide, by decide,
    (rate_limited_retry cAuth rlBody (by decide)).1 (by decide) [] aSt0⟩

-- ---------------------------------------------------------------------------
-- Claim C6
-- ---------------------------------------------------------------------------

/-- Claim C6: getValidToken never returns a token that the local clock deems
expired — the post-state expiry always lies strictly beyond `now`, and the
returned token is exactly the cached one of the post-state; a fresh token is
exchanged whenever the cache is empty or the local expiry has passed; and
the local cache TTL (4 minutes) is strictly shorter than the signed
assertion's server-side lifetime (5 minutes). -/
theorem token_never_stale (env : AuthEnv) (st : AuthState) :
    localTokenTtlMs < jwtAssertionTtlMs ∧
    (∃ t, ((getValidToken env st).2).tokenExpiresAt = some t ∧ st.now < t) ∧
    ((getValidToken env st).1 = ((getValidToken env st).2).cachedToken.getD "") ∧
    (st.cachedToken = none ∨ st.tokenExpiresAt = none ∨
        (∃ t, st.tokenExpiresAt = some t ∧ t ≤ st.now) →
      (getValidToken env st).1 = env.freshToken st.refreshCount ∧
      ((getValidToken env st).2).tokenExpiresAt = some (st.now + localTokenTtlMs) ∧
      ((getValidToken env st).2).refreshCount = st.refreshCount + 1) := by
  refine ⟨by decide, ?_, ?_, ?_⟩
  · cases hn : needsRefresh st
    · rcases ht : st.tokenExpiresAt with _ | t
      · rw [needsRefresh, ht] at hn
        simp at hn
      · refine ⟨t, ?_, ?_⟩
        · simp [getValidToken, hn, ht]
        · rw [needsRefresh, ht] at hn
          simp only [Option.getD_some, Bool.or_eq_false_iff, decide_eq_false_iff_not,
            not_le] at hn
          exact hn.2
    · refine ⟨st.now + localTokenTtlMs, by simp [getValidToken, hn], ?_⟩
      have hpos : (0 : Int) < localTokenTtlMs := by decide
      omega
  · cases hn : needsRefresh st
    · simp [getValidToken, hn]
    · simp [getValidToken, hn]
  · intro h
    have hn : needsRefresh st = true := by
      rcases h with h | h | ⟨t, ht, hle⟩
      · have hemp : ((none : Option String).getD "").isEmpty = true := by decide
        rw [needsRefresh, h, hemp]
        simp
      · rw [needsRefresh, h]
        simp
      · rw [needsRefresh, ht]
        simp only [Option.getD_some, Bool.or_eq_true, decide_eq_true_eq]
        exact Or.inr hle
    exact ⟨by simp [getValidToken, hn], by simp [getValidToken, hn],
      by simp [getValidToken, hn]⟩

/-- Claim C6, evaluated: with an empty cache the first call exchanges a
fresh token and stamps the local 4-minute expiry. -/
theorem token_never_stale_witness :
    aSt0.cachedToken = none ∧
    (getValidToken cAuth aSt0).1 = cAuth.freshToken 0 ∧
    ((getValidToken cAuth aSt0).2).tokenExpiresAt = some (aSt0.now + localTokenTtlMs) ∧
    ((getValidToken cAuth aSt0).2).refreshCount = aSt0.refreshCount + 1 :=
  ⟨rfl, (token_never_stale cAuth aSt0).2.2.2 (Or.inl rfl)⟩

-- ---------------------------------------------------------------------------
-- Claim C1
-- ---------------------------------------------------------------------------

/-- Claim C1, counterexample: in cEnvA, report 1 is listed on the only page,
its ledger entry is present, its final file has been deleted (the filesystem
is empty) — yet the sweep downloads nothing and the final file is still
absent afterwards, because the pagination fast path skips any id found among
the ledger keys without re-hashing. -/
theorem sweep_no_redownload_counterexample :
    1 ∈ (cEnvA.pages 1).reports ∧
    ledgerGet c1Log (toString 1) = some ⟨"report_1.pdf", "h", "t0"⟩ ∧
    fsEmpty (finalPathOf cEnvA 1) = none ∧
    (runSweep cEnvA 1 c1Log fsEmpty).map
      (fun p => (p.1.totalDownloaded, p.1.fs (finalPathOf cEnvA 1))) = some (0, none) := by
  refine ⟨by decide, by decide, rfl, by decide⟩

/-- Claim C1 (amended): when every report id listed by the server already has
a ledger entry, the sweep's fast path skips them all — whether or not their
final files still exist — so the run re-downloads nothing and leaves ledger
and filesystem untouched.  The hash-based re-download of a deleted file
happens only inside processReport, which such ids never reach. -/
theorem sweep_skips_ledger_members (env : Env) (fuel : Nat) (log0 : Ledger) (fs0 : FS)
    (st : SweepState) (tr : List Event)
    (hcov : ∀ n r, r ∈ (env.pages n).reports → toString r ∈ ledgerKeys log0)
    (hrun : runSweep env fuel log0 fs0 = some (st, tr)) :
    st.log = log0 ∧ st.fs = fs0 ∧ st.totalDownloaded = 0 := by
  have hfr := runPages_frozen env (initState log0 fs0)
    (fun n r hr => Or.inl (hcov n r hr)) fuel 1 [] st tr hrun
  rw [hfr]
  exact ⟨rfl, rfl, rfl⟩

/-- Claim C1 (amended), evaluated on the counterexample world: the sweep over
cEnvA from ledger c1Log and an empty filesystem changes nothing. -/
theorem sweep_skips_ledger_members_witness :
    (initState c1Log fsEmpty).log = c1Log ∧ (initState c1Log fsEmpty).fs = fsEmpty ∧
    (initState c1Log fsEmpty).totalDownloaded = 0 :=
  sweep_skips_ledger_members cEnvA 1 c1Log fsEmpty (initState c1Log fsEmpty)
    [Event.fetch 1, Event.flush c1Log]
    (fun n r hr => by
      have hr1 : r = 1 := by simpa [cEnvA] using hr
      rw [hr1]
      decide)
    rfl

-- ---------------------------------------------------------------------------
-- Claim C3
-- ---------------------------------------------------------------------------

/-- Claim C3: against a listing endpoint that reports its own page number and
a fixed total of T ≥ 1 pages, the walker starts at page 1, increments by one,
and stops with the first page whose number reaches total_pages: exactly pages
1, 2, ..., T are requested. -/
theorem pagination_walk (env : Env) (T fuel : Nat) (log0 : Ledger) (fs0 : FS)
    (hpage : ∀ m, (env.pages m).pageNumber = m ∧ (env.pages m).totalPages = T)
    (hT : 1 ≤ T) (hfuel : T ≤ fuel) :
    ∃ st tr, runSweep env fuel log0 fs0 = some (st, tr) ∧
      fetchedPages tr = List.range' 1 T := by
  have hmax : max T 1 = T := by omega
  have h := runSweep_eq env T fuel log0 fs0 hpage (by omega)
  rw [hmax] at h
  exact ⟨_, _, h, by rw [fetchedPages_pageTrace]⟩

/-- Claim C3, evaluated: with total_pages = 3 the sweep requests exactly
pages 1, 2, 3. -/
theorem pagination_walk_witness :
    (∀ m, ((c3Env.pages m).pageNumber = m ∧ (c3Env.pages m).totalPages = 3)) ∧
    List.range' 1 3 = [1, 2, 3] ∧
    (∃ st tr, runSweep c3Env 3 [] fsEmpty = some (st, tr) ∧
      fetchedPages tr = List.range' 1 3) :=
  ⟨fun _ => ⟨rfl, rfl⟩, by decide,
    pagination_walk c3Env 3 3 [] fsEmpty (fun _ => ⟨rfl, rfl⟩) (by decide) (by decide)⟩

-- ---------------------------------------------------------------------------
-- Claim C7
-- ---------------------------------------------------------------------------

/-- Claim C7: immediately re-running a completed sweep — same server pages,
no external change to files or ledger — succeeds, downloads nothing, and
leaves the ledger and the filesystem exactly as the first run left them. -/
theorem sweep_idempotent (env : Env) (T fuel : Nat) (log0 : Ledger) (fs0 : FS)
    (st1 : SweepState) (tr1 : List Event)
    (hpage : ∀ m, (env.pages m).pageNumber = m ∧ (env.pages m).totalPages = T)
    (hT : 1 ≤ T) (hfuel : T ≤ fuel)
    (h1 : runSweep env fuel log0 fs0 = some (st1, tr1)) :
    ∃ st2 tr2, runSweep env fuel st1.log st1.fs = some (st2, tr2) ∧
      st2.log = st1.log ∧ st2.fs = st1.fs ∧ st2.totalDownloaded = 0 := by
  have hmax : max T 1 = T := by omega
  have he := runSweep_eq env T fuel log0 fs0 hpage (by omega)
  rw [h1, hmax] at he
  have hst1 : st1 = pagesStateAfter env (initState log0 fs0) T := by
    simp only [Option.some.injEq, Prod.mk.injEq] at he
    exact he.1
  have hcov : ∀ j, 1 ≤ j → j ≤ T → ∀ r ∈ (env.pages j).reports,
      toString r ∈ ledgerKeys st1.log ∨ noArtifactUrl env r := by
    intro j hj1 hj2 r hr
    rw [hst1]
    exact covered_pagesStateAfter env (initState log0 fs0) (fun k hk => hk) T j hj1 hj2 r hr
  have he2 := runSweep_eq env T fuel st1.log st1.fs hpage (by omega)
  rw [hmax] at he2
  have hid : pagesStateAfter env (initState st1.log st1.fs) T = initState st1.log st1.fs :=
    pagesStateAfter_id env (initState st1.log st1.fs) T
      (fun j hj1 hj2 r hr => hcov j hj1 hj2 r hr) T (le_refl T)
  rw [hid] at he2
  exact ⟨_, _, he2, rfl, rfl, rfl⟩

/-- Claim C7, evaluated: after a first sweep of c7Env downloaded report 5
(state c7St1), a second sweep from that state changes nothing. -/
theorem sweep_idempotent_witness :
    ∃ st2 tr2, runSweep c7Env 1 c7St1.log c7St1.fs = some (st2, tr2) ∧
      st2.log = c7St1.log ∧ st2.fs = c7St1.fs ∧ st2.totalDownloaded = 0 :=
  sweep_idempotent c7Env 1 1 [] fsEmpty c7St1 [Event.fetch 1, Event.flush c7Log1]
    (fun _ => ⟨rfl, rfl⟩) (le_refl 1) (le_refl 1) rfl

-- ---------------------------------------------------------------------------
-- Claim C9
-- ---------------------------------------------------------------------------

/-- Claim C9: the full in-memory ledger is flushed to durable storage after
each page's records are processed and before the next page is fetched: the
run's event trace is exactly fetch 1, flush (ledger after page 1), fetch 2,
flush (ledger after page 2), ..., fetch T, flush (ledger after page T), so
a crash can only lose entries of the page in progress. -/
theorem ledger_flushed_per_page (env : Env) (T fuel : Nat) (log0 : Ledger) (fs0 : FS)
    (hpage : ∀ m, (env.pages m).pageNumber = m ∧ (env.pages m).totalPages = T)
    (hT : 1 ≤ T) (hfuel : T ≤ fuel) :
    runSweep env fuel log0 fs0 =
      some (pagesStateAfter env (initState log0 fs0) T,
        (List.range' 1 T).flatMap fun i =>
          [Event.fetch i, Event.flush (pagesStateAfter env (initState log0 fs0) i).log]) := by
  have hmax : max T 1 = T := by omega
  have h := runSweep_eq env T fuel log0 fs0 hpage (by omega)
  rw [hmax] at h
  exact h

/-- Claim C9, evaluated on the one-page world c9Env. -/
theorem ledger_flushed_per_page_witness :
    runSweep c9Env 1 [] fsEmpty =
      some (pagesStateAfter c9Env (initState [] fsEmpty) 1,
        (List.range' 1 1).flatMap fun i =>
          [Event.fetch i, Event.flush (pagesStateAfter c9Env (initState [] fsEmpty) i).log]) :=
  ledger_flushed_per_page c9Env 1 1 [] fsEmpty (fun _ => ⟨rfl, rfl⟩) (le_refl 1) (le_refl 1)
